import Mathlib

/-!
Verification development for the digits-packing-puzzle repository.

The definitions below are a shallow embedding of the repository's core
modules: the segment catalog (`segments.ts`), the rotation engine
(`rotation.ts`), and the piece-lifecycle reducer (`gameState.ts`).
JavaScript numbers holding grid coordinates are modelled as `Int`;
segment-identity strings are modelled as Lean `String`s built exactly as
`segmentToId` builds them; the JavaScript `Set<string>` of occupied
segment identities is modelled by its value semantics as `Finset String`.
-/

namespace DigitsPuzzle

/-- Orientation of a segment (edge) in the grid graph. -/
inductive Orientation
  | horizontal
  | vertical
deriving DecidableEq, Repr

/-- A segment is an edge in the grid: the grid point at its start plus an
orientation.  Mirrors `Segment` in `types.ts`. -/
structure Segment where
  x : Int
  y : Int
  orientation : Orientation
deriving DecidableEq, Repr

/-- Segment identity strings, as produced by `segmentToId`. -/
abbrev SegmentId := String

/-- The one-letter orientation code used inside segment identity strings. -/
def orientationCode : Orientation → String
  | .horizontal => "h"
  | .vertical => "v"

/-- `segmentToId` from `segments.ts`: the identity string `"x,y,h"` / `"x,y,v"`. -/
def segmentToId (segment : Segment) : SegmentId :=
  toString segment.x ++ "," ++ toString segment.y ++ "," ++ orientationCode segment.orientation

/-- `SEGMENT_PATTERNS` from `segments.ts`: the base segment pattern of each
digit 0-9 in local coordinates, in source order.  Digits outside 0-9 are
not representable in the source (`Record<PieceNumber, _>`); they map to `[]`. -/
def SEGMENT_PATTERNS : Nat → List Segment
  | 0 => [⟨0, 0, .horizontal⟩, ⟨1, 0, .vertical⟩, ⟨0, 1, .horizontal⟩, ⟨0, 0, .vertical⟩]
  | 1 => [⟨1, 0, .vertical⟩, ⟨1, 1, .vertical⟩]
  | 2 => [⟨0, 0, .horizontal⟩, ⟨1, 0, .vertical⟩, ⟨0, 1, .horizontal⟩, ⟨0, 1, .vertical⟩,
          ⟨0, 2, .horizontal⟩]
  | 3 => [⟨0, 0, .horizontal⟩, ⟨1, 0, .vertical⟩, ⟨0, 1, .horizontal⟩, ⟨1, 1, .vertical⟩,
          ⟨0, 2, .horizontal⟩]
  | 4 => [⟨0, 0, .vertical⟩, ⟨0, 1, .horizontal⟩, ⟨1, 0, .vertical⟩, ⟨1, 1, .vertical⟩]
  | 5 => [⟨0, 0, .horizontal⟩, ⟨0, 0, .vertical⟩, ⟨0, 1, .horizontal⟩, ⟨1, 1, .vertical⟩,
          ⟨0, 2, .horizontal⟩]
  | 6 => [⟨0, 0, .horizontal⟩, ⟨0, 0, .vertical⟩, ⟨0, 1, .horizontal⟩, ⟨0, 1, .vertical⟩,
          ⟨0, 2, .horizontal⟩, ⟨1, 1, .vertical⟩]
  | 7 => [⟨0, 0, .horizontal⟩, ⟨1, 0, .vertical⟩, ⟨1, 1, .vertical⟩]
  | 8 => [⟨0, 0, .horizontal⟩, ⟨1, 0, .vertical⟩, ⟨1, 1, .vertical⟩, ⟨0, 2, .horizontal⟩,
          ⟨0, 1, .vertical⟩, ⟨0, 0, .vertical⟩, ⟨0, 1, .horizontal⟩]
  | 9 => [⟨0, 0, .horizontal⟩, ⟨1, 0, .vertical⟩, ⟨1, 1, .vertical⟩, ⟨0, 2, .horizontal⟩,
          ⟨0, 0, .vertical⟩, ⟨0, 1, .horizontal⟩]
  | _ => []

/-- `rotateSegment90Clockwise` from `rotation.ts`: a horizontal segment at
`(x, y)` becomes vertical at `(y, -x-1)`; a vertical one becomes horizontal
at `(y, -x)`. -/
def rotateSegment90Clockwise (segment : Segment) : Segment :=
  match segment.orientation with
  | .horizontal => ⟨segment.y, -segment.x - 1, .vertical⟩
  | .vertical => ⟨segment.y, -segment.x, .horizontal⟩

/-- Minimum of a list of integers (exact minimum on nonempty input; the
default on `[]` is irrelevant because callers map over the same list, which
is then empty).  This models the `Infinity`-seeded min folds of
`getBoundingBox` in `rotation.ts`. -/
def minList : List Int → Int
  | [] => 0
  | x :: xs => xs.foldl min x

/-- `normalizeSegments` from `rotation.ts`: translate all segments so that
the minimum raw x and minimum raw y become 0. -/
def normalizeSegments (segments : List Segment) : List Segment :=
  let minX := minList (segments.map Segment.x)
  let minY := minList (segments.map Segment.y)
  segments.map fun seg => ⟨seg.x - minX, seg.y - minY, seg.orientation⟩

/-- The `for` loop of `rotateSegments`: apply the 90-degree clockwise map
pointwise `times` times. -/
def applyRotations : Nat → List Segment → List Segment
  | 0, segments => segments
  | n + 1, segments => applyRotations n (segments.map rotateSegment90Clockwise)

/-- `rotateSegments` from `rotation.ts`: identity short-circuit at rotation 0,
otherwise rotate `rotation / 90` times and normalize. -/
def rotateSegments (segments : List Segment) (rotation : Int) : List Segment :=
  if rotation = 0 then segments
  else normalizeSegments (applyRotations (rotation / 90).toNat segments)

/-- A piece, mirroring `Piece` in `types.ts`.  `number` is 0-9 and
`rotation` is one of 0/90/180/270 in the source's types; theorems carry
those bounds as hypotheses where they matter. -/
structure Piece where
  id : String
  number : Nat
  rotation : Int
  segments : List Segment
deriving DecidableEq, Repr

/-- Rotation direction of `rotatePiece`. -/
inductive Direction
  | clockwise
  | counterclockwise
deriving DecidableEq, Repr

/-- `rotatePiece` from `rotation.ts`: step the rotation by plus or minus 90
(mod 360) and recompute the segments from the digit's base pattern at the
new rotation. -/
def rotatePiece (piece : Piece) (direction : Direction) : Piece :=
  let delta : Int := match direction with | .clockwise => 90 | .counterclockwise => -90
  let newRotation := (piece.rotation + delta + 360) % 360
  let baseSegments := SEGMENT_PATTERNS piece.number
  { piece with rotation := newRotation, segments := rotateSegments baseSegments newRotation }

/-- `getPieceSegments` from `rotation.ts`: the derived segment view of a
piece, recomputed from `(number, rotation)`. -/
def getPieceSegments (piece : Piece) : List Segment :=
  rotateSegments (SEGMENT_PATTERNS piece.number) piece.rotation

/-- Board anchor position, mirroring `BoardPosition` in `types.ts`. -/
structure BoardPosition where
  x : Int
  y : Int
deriving DecidableEq, Repr

/-- A placed piece, mirroring `PlacedPiece` in `types.ts`. -/
structure PlacedPiece where
  piece : Piece
  position : BoardPosition
deriving DecidableEq, Repr

/-- Board state, mirroring `BoardState` in `types.ts`.  The literal-typed
fields `gridWidth : 5`, `gridHeight : 4`, `totalSegments : 49` are compile
time constants in the source and are omitted. -/
structure BoardState where
  placedPieces : List PlacedPiece
  occupiedSegments : Finset SegmentId
deriving DecidableEq

/-- Origin of a drag, mirroring the `sourceType` field of `DragState`. -/
inductive SourceType
  | inventory
  | board
deriving DecidableEq, Repr

/-- Drag state, mirroring `DragState` in `types.ts`.  `sourcePiece` is the
snapshot of the piece taken at pickup time. -/
structure DragState where
  piece : Piece
  sourceType : SourceType
  sourcePosition : Option BoardPosition
  sourcePiece : Option Piece
deriving DecidableEq

/-- Root game state, mirroring `GameState` in `types.ts`. -/
structure GameState where
  board : BoardState
  inventory : List Piece
  dragState : Option DragState
deriving DecidableEq

/-- `getInitialState` from `gameState.ts`: ten pieces `piece-0` .. `piece-9`
at rotation 0 with their base patterns, empty board, no drag. -/
def getInitialState : GameState :=
  { board := { placedPieces := [], occupiedSegments := ∅ },
    inventory := (List.range 10).map fun i =>
      { id := "piece-" ++ toString i, number := i, rotation := 0,
        segments := SEGMENT_PATTERNS i },
    dragState := none }

/-- `getPieceSegmentPositions` from `gameState.ts`: the absolute segments of
a piece at a board position. -/
def getPieceSegmentPositions (piece : Piece) (position : BoardPosition) : List Segment :=
  (getPieceSegments piece).map fun seg =>
    ⟨position.x + seg.x, position.y + seg.y, seg.orientation⟩

/-- The out-of-bounds test inside `checkCollision` in `gameState.ts`. -/
def segmentOutOfBounds (segment : Segment) : Bool :=
  match segment.orientation with
  | .horizontal => segment.x < 0 || segment.x ≥ 5 || segment.y < 0 || segment.y > 4
  | .vertical => segment.x < 0 || segment.x > 5 || segment.y < 0 || segment.y ≥ 4

/-- `checkCollision` from `gameState.ts`: true when some absolute segment is
already occupied or out of bounds (the source returns true on the first such
segment; `List.any` has the same value). -/
def checkCollision (piece : Piece) (position : BoardPosition)
    (occupiedSegments : Finset SegmentId) : Bool :=
  (getPieceSegmentPositions piece position).any fun segment =>
    decide (segmentToId segment ∈ occupiedSegments) || segmentOutOfBounds segment

/-- The `operation` argument of `updateOccupiedSegments`. -/
inductive SetOperation
  | add
  | remove
deriving DecidableEq, Repr

/-- `updateOccupiedSegments` from `gameState.ts`: functional update that adds
or removes every absolute segment identity of the piece at the position. -/
def updateOccupiedSegments (occupiedSegments : Finset SegmentId) (piece : Piece)
    (position : BoardPosition) (operation : SetOperation) : Finset SegmentId :=
  (getPieceSegmentPositions piece position).foldl
    (fun acc segment =>
      match operation with
      | .add => insert (segmentToId segment) acc
      | .remove => acc.erase (segmentToId segment))
    occupiedSegments

/-- Game actions, mirroring the `GameAction` union in `gameState.ts`.
`PICK_UP_PIECE`'s `position` is optional in the source and modelled with
`Option`. -/
inductive GameAction
  | pickUpPiece (piece : Piece) (source : SourceType) (position : Option BoardPosition)
  | dropPiece (position : BoardPosition)
  | cancelDrag
  | rotatePieceAct (pieceId : String) (direction : Direction)
  | returnToInventory (piece : Piece)
  | resetBoard
  | loadState (state : GameState)

/-- The `ROTATE_PIECE` inventory update: `findIndex` on the piece id followed
by replacing the element at that index, i.e. rotate the first entry whose id
matches and keep everything else. -/
def rotateFirstMatch (pieceId : String) (direction : Direction) : List Piece → List Piece
  | [] => []
  | p :: rest =>
    if p.id = pieceId then rotatePiece p direction :: rest
    else p :: rotateFirstMatch pieceId direction rest

/-- The placement code at the bottom of the `DROP_PIECE` case (after the
collision block).  The source reaches it either when there is no collision or
by falling through the collision block when `sourceType` is `board` and
`sourcePosition` is absent; the final line mirrors the source's last
`return`, which spreads the old state (old board, old inventory) and only
clears `dragState`. -/
def dropPlace (state : GameState) (drag : DragState) (position : BoardPosition) : GameState :=
  let piece := drag.piece
  let newOccupiedSegments :=
    updateOccupiedSegments state.board.occupiedSegments piece position .add
  if drag.sourceType = .inventory then
    let newInventory := state.inventory.filter fun p => p.id ≠ piece.id
    { state with
      board := { state.board with
        placedPieces := state.board.placedPieces ++ [⟨piece, position⟩],
        occupiedSegments := newOccupiedSegments },
      inventory := newInventory,
      dragState := none }
  else
    match drag.sourcePosition with
    | some _ =>
      let newPlacedPieces := state.board.placedPieces.map fun pp =>
        if pp.piece.id = piece.id then ⟨piece, position⟩ else pp
      { state with
        board := { state.board with
          placedPieces := newPlacedPieces,
          occupiedSegments := newOccupiedSegments },
        dragState := none }
    | none => { state with dragState := none }

/-- `gameReducer` from `gameState.ts`, translated case by case. -/
def gameReducer (state : GameState) (action : GameAction) : GameState :=
  match action with
  | .pickUpPiece piece source position =>
    match source, position with
    | .board, some pos =>
      let newOccupiedSegments :=
        updateOccupiedSegments state.board.occupiedSegments piece pos .remove
      { state with
        board := { state.board with occupiedSegments := newOccupiedSegments },
        dragState := some
          { piece := piece, sourceType := source,
            sourcePosition := some pos, sourcePiece := some piece } }
    | _, _ =>
      { state with
        dragState := some
          { piece := piece, sourceType := source,
            sourcePosition := none, sourcePiece := none } }
  | .dropPiece position =>
    match state.dragState with
    | none => state
    | some drag =>
      if checkCollision drag.piece position state.board.occupiedSegments then
        if drag.sourceType = .inventory then
          { state with dragState := none }
        else
          match drag.sourcePosition with
          | some sourcePos =>
            let restorePiece := drag.sourcePiece.getD drag.piece
            let newOccupiedSegments :=
              updateOccupiedSegments state.board.occupiedSegments restorePiece sourcePos .add
            { state with
              board := { state.board with occupiedSegments := newOccupiedSegments },
              dragState := none }
          | none =>
            -- the source has no `return` on this path and falls into the
            -- placement code below the collision block
            dropPlace state drag position
      else dropPlace state drag position
  | .cancelDrag =>
    match state.dragState with
    | none => state
    | some drag =>
      if drag.sourceType = .inventory then
        { state with dragState := none }
      else
        match drag.sourcePosition with
        | some sourcePos =>
          let restorePiece := drag.sourcePiece.getD drag.piece
          let newOccupiedSegments :=
            updateOccupiedSegments state.board.occupiedSegments restorePiece sourcePos .add
          { state with
            board := { state.board with occupiedSegments := newOccupiedSegments },
            dragState := none }
        | none => { state with dragState := none }
  | .rotatePieceAct pieceId direction =>
    let inventoryHasPiece := state.inventory.any fun p => p.id = pieceId
    let newInventory := rotateFirstMatch pieceId direction state.inventory
    let dragMatches :=
      match state.dragState with
      | some d => decide (d.piece.id = pieceId)
      | none => false
    let newDragState :=
      match state.dragState with
      | some d =>
        if d.piece.id = pieceId then some { d with piece := rotatePiece d.piece direction }
        else some d
      | none => none
    if !inventoryHasPiece && !dragMatches then state
    else { state with inventory := newInventory, dragState := newDragState }
  | .returnToInventory piece =>
    let isInventoryDrag :=
      match state.dragState with
      | some d => decide (d.sourceType = SourceType.inventory)
      | none => false
    if isInventoryDrag then
      { state with dragState := none }
    else
      let newPlacedPieces := state.board.placedPieces.filter fun pp : PlacedPiece => pp.piece.id ≠ piece.id
      let placedPiece := state.board.placedPieces.find? fun pp : PlacedPiece => pp.piece.id = piece.id
      let newOccupiedSegments :=
        match placedPiece with
        | some pp => updateOccupiedSegments state.board.occupiedSegments pp.piece pp.position .remove
        | none => state.board.occupiedSegments
      let isAlreadyInInventory := state.inventory.any fun p => p.id = piece.id
      { state with
        board := { state.board with
          placedPieces := newPlacedPieces,
          occupiedSegments := newOccupiedSegments },
        inventory := if isAlreadyInInventory then state.inventory else state.inventory ++ [piece],
        dragState := none }
  | .resetBoard => getInitialState
  | .loadState s => s

/-! ### Derived notions used by the specification's invariants -/

/-- The set of absolute segment identities contributed by a piece at a
position. -/
def footprint (piece : Piece) (position : BoardPosition) : Finset SegmentId :=
  ((getPieceSegmentPositions piece position).map segmentToId).toFinset

/-- The footprint of a placed entry. -/
def placedFootprint (e : PlacedPiece) : Finset SegmentId :=
  footprint e.piece e.position

/-- The union of the absolute segment identities contributed by all placed
pieces at their positions. -/
def placedUnion : List PlacedPiece → Finset SegmentId
  | [] => ∅
  | e :: rest => placedFootprint e ∪ placedUnion rest

/-- The ids of the inventory pieces. -/
def invIds (l : List Piece) : List String := l.map Piece.id

/-- The ids of the placed pieces. -/
def placedIds (l : List PlacedPiece) : List String := l.map fun e => e.piece.id

/-! ### Characterisation of the occupancy updates -/

theorem foldl_insert_eq (l : List SegmentId) (acc : Finset SegmentId) :
    l.foldl (fun a s => insert s a) acc = acc ∪ l.toFinset := by
  induction l generalizing acc with
  | nil => simp
  | cons x xs ih =>
    simp only [List.foldl_cons, ih, List.toFinset_cons]
    ext a
    simp only [Finset.mem_union, Finset.mem_insert, List.mem_toFinset]
    tauto

theorem foldl_erase_eq (l : List SegmentId) (acc : Finset SegmentId) :
    l.foldl (fun a s => a.erase s) acc = acc \ l.toFinset := by
  induction l generalizing acc with
  | nil => simp
  | cons x xs ih =>
    simp only [List.foldl_cons, ih, List.toFinset_cons]
    ext a
    simp only [Finset.mem_sdiff, Finset.mem_erase, Finset.mem_insert, List.mem_toFinset, not_or]
    tauto

theorem update_add_eq (occ : Finset SegmentId) (p : Piece) (pos : BoardPosition) :
    updateOccupiedSegments occ p pos .add = occ ∪ footprint p pos := by
  have h : updateOccupiedSegments occ p pos .add
      = ((getPieceSegmentPositions p pos).map segmentToId).foldl (fun a s => insert s a) occ := by
    simp only [updateOccupiedSegments, List.foldl_map]
  rw [h, foldl_insert_eq, footprint]

theorem update_remove_eq (occ : Finset SegmentId) (p : Piece) (pos : BoardPosition) :
    updateOccupiedSegments occ p pos .remove = occ \ footprint p pos := by
  have h : updateOccupiedSegments occ p pos .remove
      = ((getPieceSegmentPositions p pos).map segmentToId).foldl (fun a s => a.erase s) occ := by
    simp only [updateOccupiedSegments, List.foldl_map]
  rw [h, foldl_erase_eq, footprint]

theorem footprint_subset_placedUnion {e : PlacedPiece} {l : List PlacedPiece} (he : e ∈ l) :
    placedFootprint e ⊆ placedUnion l := by
  induction l with
  | nil => cases he
  | cons x xs ih =>
    rcases List.mem_cons.mp he with h | h
    · subst h; exact Finset.subset_union_left
    · exact (ih h).trans Finset.subset_union_right

theorem placedUnion_append (l₁ l₂ : List PlacedPiece) :
    placedUnion (l₁ ++ l₂) = placedUnion l₁ ∪ placedUnion l₂ := by
  induction l₁ with
  | nil => simp [placedUnion]
  | cons x xs ih => simp [placedUnion, ih, Finset.union_assoc]

/-- A failed collision check means the piece's footprint is disjoint from
the occupied set (and, separately, in bounds). -/
theorem checkCollision_false_disjoint {p : Piece} {pos : BoardPosition}
    {occ : Finset SegmentId} (h : checkCollision p pos occ = false) :
    Disjoint (footprint p pos) occ := by
  rw [Finset.disjoint_left]
  intro a ha hmem
  simp only [footprint, List.mem_toFinset, List.mem_map] at ha
  obtain ⟨seg, hseg, rfl⟩ := ha
  simp only [checkCollision, List.any_eq_false] at h
  have hfalse := h seg hseg
  simp only [Bool.or_eq_true, decide_eq_true_eq, not_or] at hfalse
  exact hfalse.1 hmem

/-! ### The well-formedness invariant of reachable states -/

/-- Pairwise disjointness of the footprints of the placed pieces. -/
def DisjointFootprints (l : List PlacedPiece) : Prop :=
  l.Pairwise fun a b => Disjoint (placedFootprint a) (placedFootprint b)

/-- Structural part of the invariant: ids are unique within the inventory and
within the board, no id is in both, and placed footprints do not overlap. -/
def BaseInv (s : GameState) : Prop :=
  (invIds s.inventory).Nodup ∧
  (placedIds s.board.placedPieces).Nodup ∧
  (∀ a ∈ invIds s.inventory, a ∉ placedIds s.board.placedPieces) ∧
  DisjointFootprints s.board.placedPieces

/-- Occupancy part of the invariant.  Outside a drag the occupied set is
exactly the union of the placed footprints; during an inventory-source drag
it still is (and the dragged piece is still an inventory entry); during a
board-source drag the source entry's footprint is provisionally removed. -/
def DragInv (s : GameState) : Prop :=
  match s.dragState with
  | none => s.board.occupiedSegments = placedUnion s.board.placedPieces
  | some d =>
    match d.sourceType with
    | .inventory =>
        d.sourcePosition = none ∧ d.sourcePiece = none ∧
        d.piece.id ∈ invIds s.inventory ∧
        s.board.occupiedSegments = placedUnion s.board.placedPieces
    | .board =>
        ∃ sp spc, d.sourcePosition = some sp ∧ d.sourcePiece = some spc ∧
          d.piece.id = spc.id ∧ (⟨spc, sp⟩ : PlacedPiece) ∈ s.board.placedPieces ∧
          s.board.occupiedSegments =
            placedUnion s.board.placedPieces \ footprint spc sp

/-- The full invariant of well-formed reachable states. -/
def Inv (s : GameState) : Prop := BaseInv s ∧ DragInv s

/-- One well-formed user action, as the UI layer dispatches them: pickups
happen only while no drag is active and name a piece actually present at the
claimed source; a return-to-inventory during a board-source drag is issued
for the dragged piece (the UI passes `dragState.piece`); `LOAD_STATE` is a
persistence-boundary action fed only previously validated states and is not
part of the user action stream. -/
inductive WfStep : GameState → GameState → Prop
  | pickupInventory (s : GameState) (p : Piece)
      (hdrag : s.dragState = none) (hp : p ∈ s.inventory) :
      WfStep s (gameReducer s (.pickUpPiece p .inventory none))
  | pickupBoard (s : GameState) (p : Piece) (pos : BoardPosition)
      (hdrag : s.dragState = none) (hp : (⟨p, pos⟩ : PlacedPiece) ∈ s.board.placedPieces) :
      WfStep s (gameReducer s (.pickUpPiece p .board (some pos)))
  | drop (s : GameState) (pos : BoardPosition) :
      WfStep s (gameReducer s (.dropPiece pos))
  | cancel (s : GameState) :
      WfStep s (gameReducer s .cancelDrag)
  | rotate (s : GameState) (pid : String) (dir : Direction) :
      WfStep s (gameReducer s (.rotatePieceAct pid dir))
  | returnInv (s : GameState) (p : Piece)
      (hguard : ∀ d, s.dragState = some d → d.sourceType = .board → p.id = d.piece.id) :
      WfStep s (gameReducer s (.returnToInventory p))
  | reset (s : GameState) :
      WfStep s (gameReducer s .resetBoard)

/-- States reachable from the initial state by well-formed user actions. -/
inductive Reachable : GameState → Prop
  | init : Reachable getInitialState
  | step {s s' : GameState} : Reachable s → WfStep s s' → Reachable s'

/-! ### Helper lemmas about ids, footprints and list surgery -/

theorem rotatePiece_id (p : Piece) (d : Direction) : (rotatePiece p d).id = p.id := rfl

theorem invIds_rotateFirstMatch (pid : String) (dir : Direction) (l : List Piece) :
    invIds (rotateFirstMatch pid dir l) = invIds l := by
  induction l with
  | nil => rfl
  | cons p rest ih =>
    by_cases h : p.id = pid
    · simp [rotateFirstMatch, h, invIds, rotatePiece_id]
    · simp only [rotateFirstMatch, if_neg h, invIds, List.map_cons]
      simpa [invIds] using ih

theorem mem_invIds {l : List Piece} {x : String} : x ∈ invIds l ↔ ∃ p ∈ l, p.id = x := by
  simp [invIds]

theorem any_id_eq_true {l : List Piece} {x : String} :
    (l.any fun p => p.id = x) = true ↔ x ∈ invIds l := by
  simp [invIds, List.any_eq_true]

theorem invIds_append (l₁ l₂ : List Piece) :
    invIds (l₁ ++ l₂) = invIds l₁ ++ invIds l₂ := by
  simp [invIds]

theorem placedIds_append (l₁ l₂ : List PlacedPiece) :
    placedIds (l₁ ++ l₂) = placedIds l₁ ++ placedIds l₂ := by
  simp [placedIds]

theorem mem_placedIds {l : List PlacedPiece} {x : String} :
    x ∈ placedIds l ↔ ∃ e ∈ l, e.piece.id = x := by
  simp [placedIds]

/-- If a set is disjoint from every placed footprint, it is disjoint from
their union. -/
theorem disjoint_placedUnion_of_forall {X : Finset SegmentId} {l : List PlacedPiece}
    (h : ∀ e ∈ l, Disjoint X (placedFootprint e)) : Disjoint X (placedUnion l) := by
  induction l with
  | nil => simp [placedUnion]
  | cons e rest ih =>
    simp only [placedUnion, Finset.disjoint_union_right]
    exact ⟨h e (List.mem_cons_self e rest), ih fun x hx => h x (List.mem_cons_of_mem e hx)⟩

/-- Freshness of a given id in the two halves of a decomposed placed list
with `Nodup` ids. -/
theorem nodup_decomp_ne {l₁ l₂ : List PlacedPiece} {e : PlacedPiece}
    (hnd : (placedIds (l₁ ++ e :: l₂)).Nodup) :
    (∀ x ∈ l₁, x.piece.id ≠ e.piece.id) ∧ (∀ x ∈ l₂, x.piece.id ≠ e.piece.id) := by
  rw [placedIds_append, List.nodup_append] at hnd
  obtain ⟨hnd₁, hnd₂, hdisj⟩ := hnd
  constructor
  · intro x hx heq
    exact hdisj (mem_placedIds.mpr ⟨x, hx, rfl⟩) (by simp [placedIds, heq])
  · intro x hx heq
    have hnd₂' : e.piece.id ∉ placedIds l₂ ∧ (placedIds l₂).Nodup := by
      rw [show placedIds (e :: l₂) = e.piece.id :: placedIds l₂ from rfl,
        List.nodup_cons] at hnd₂
      exact hnd₂
    exact hnd₂'.1 (mem_placedIds.mpr ⟨x, hx, heq⟩)

theorem filter_decomp {l₁ l₂ : List PlacedPiece} {e : PlacedPiece} {pid : String}
    (h₁ : ∀ x ∈ l₁, x.piece.id ≠ pid) (h₂ : ∀ x ∈ l₂, x.piece.id ≠ pid)
    (he : e.piece.id = pid) :
    ((l₁ ++ e :: l₂).filter fun pp => pp.piece.id ≠ pid) = l₁ ++ l₂ := by
  induction l₁ with
  | nil =>
    simp only [List.nil_append, List.filter_cons]
    rw [if_neg (by simp [he])]
    exact List.filter_eq_self.mpr fun x hx => by simpa using h₂ x hx
  | cons a rest ih =>
    simp only [List.cons_append, List.filter_cons]
    rw [if_pos (by simpa using h₁ a (List.mem_cons_self a rest))]
    rw [ih fun x hx => h₁ x (List.mem_cons_of_mem a hx)]

theorem map_replace_decomp {l₁ l₂ : List PlacedPiece} {e newE : PlacedPiece} {pid : String}
    (h₁ : ∀ x ∈ l₁, x.piece.id ≠ pid) (h₂ : ∀ x ∈ l₂, x.piece.id ≠ pid)
    (he : e.piece.id = pid) :
    ((l₁ ++ e :: l₂).map fun pp => if pp.piece.id = pid then newE else pp)
      = l₁ ++ newE :: l₂ := by
  induction l₁ with
  | nil =>
    simp only [List.nil_append, List.map_cons, if_pos he]
    congr 1
    have : ∀ x ∈ l₂, (if x.piece.id = pid then newE else x) = x :=
      fun x hx => if_neg (h₂ x hx)
    rw [List.map_congr_left this]
    simp
  | cons a rest ih =>
    simp only [List.cons_append, List.map_cons]
    rw [if_neg (h₁ a (List.mem_cons_self a rest))]
    rw [ih fun x hx => h₁ x (List.mem_cons_of_mem a hx)]

theorem find?_decomp {l₁ l₂ : List PlacedPiece} {e : PlacedPiece} {pid : String}
    (h₁ : ∀ x ∈ l₁, x.piece.id ≠ pid) (he : e.piece.id = pid) :
    ((l₁ ++ e :: l₂).find? fun pp => pp.piece.id = pid) = some e := by
  induction l₁ with
  | nil =>
    rw [List.nil_append]
    exact List.find?_cons_of_pos _ (by simpa using he)
  | cons a rest ih =>
    rw [List.cons_append]
    rw [List.find?_cons_of_neg _ (by simpa using h₁ a (List.mem_cons_self a rest))]
    exact ih fun x hx => h₁ x (List.mem_cons_of_mem a hx)

theorem placedUnion_decomp (l₁ l₂ : List PlacedPiece) (e : PlacedPiece) :
    placedUnion (l₁ ++ e :: l₂) = placedUnion l₁ ∪ (placedFootprint e ∪ placedUnion l₂) := by
  rw [placedUnion_append]
  rfl

/-- Removing a decomposed entry's footprint from the whole union leaves the
union of the rest, provided the footprints are pairwise disjoint. -/
theorem sdiff_decomp {l₁ l₂ : List PlacedPiece} {e : PlacedPiece}
    (hd : DisjointFootprints (l₁ ++ e :: l₂)) :
    placedUnion (l₁ ++ e :: l₂) \ placedFootprint e = placedUnion (l₁ ++ l₂) := by
  rw [placedUnion_decomp, placedUnion_append]
  obtain ⟨hp₁, hpc, hcross⟩ := List.pairwise_append.mp hd
  have hce := (List.pairwise_cons.mp hpc).1
  have hA₁ : Disjoint (placedFootprint e) (placedUnion l₁) :=
    disjoint_placedUnion_of_forall fun x hx =>
      (hcross x hx e (List.mem_cons_self e l₂)).symm
  have hA₁' : ∀ t ∈ placedUnion l₁, t ∉ placedFootprint e := by
    intro t ht
    exact fun hc => Finset.disjoint_right.mp hA₁ ht hc
  have hA₂ : Disjoint (placedFootprint e) (placedUnion l₂) :=
    disjoint_placedUnion_of_forall fun x hx => hce x hx
  have hA₂' : ∀ t ∈ placedUnion l₂, t ∉ placedFootprint e := by
    intro t ht
    exact fun hc => Finset.disjoint_left.mp hA₂ hc ht
  ext a
  simp only [Finset.mem_sdiff, Finset.mem_union]
  constructor
  · rintro ⟨h | h | h, hna⟩
    · exact Or.inl h
    · exact absurd h hna
    · exact Or.inr h
  · rintro (h | h)
    · exact ⟨Or.inl h, hA₁' a h⟩
    · exact ⟨Or.inr (Or.inr h), hA₂' a h⟩

/-! ### Reduction equations for the reducer -/

theorem gr_pickup_inventory (s : GameState) (p : Piece) :
    gameReducer s (.pickUpPiece p .inventory none)
      = { s with dragState := some ⟨p, .inventory, none, none⟩ } := rfl

theorem gr_pickup_board (s : GameState) (p : Piece) (pos : BoardPosition) :
    gameReducer s (.pickUpPiece p .board (some pos))
      = { s with
          board := { s.board with
            occupiedSegments :=
              updateOccupiedSegments s.board.occupiedSegments p pos .remove },
          dragState := some ⟨p, .board, some pos, some p⟩ } := rfl

theorem gr_pickup_board_none (s : GameState) (p : Piece) :
    gameReducer s (.pickUpPiece p .board none)
      = { s with dragState := some ⟨p, .board, none, none⟩ } := rfl

/-! ### Preservation of the invariant -/

theorem inv_init : Inv getInitialState := by
  refine ⟨⟨?_, ?_, ?_, ?_⟩, ?_⟩
  · decide
  · decide
  · decide
  · exact List.Pairwise.nil
  · exact rfl

theorem pickup_inventory_inv {s : GameState} {p : Piece}
    (hinv : Inv s) (hdrag : s.dragState = none) (hp : p ∈ s.inventory) :
    Inv (gameReducer s (.pickUpPiece p .inventory none)) := by
  obtain ⟨⟨h1, h2, h3, h4⟩, h5⟩ := hinv
  simp only [DragInv, hdrag] at h5
  rw [gr_pickup_inventory]
  exact ⟨⟨h1, h2, h3, h4⟩, rfl, rfl, mem_invIds.mpr ⟨p, hp, rfl⟩, h5⟩

theorem pickup_board_inv {s : GameState} {p : Piece} {pos : BoardPosition}
    (hinv : Inv s) (hdrag : s.dragState = none)
    (hp : (⟨p, pos⟩ : PlacedPiece) ∈ s.board.placedPieces) :
    Inv (gameReducer s (.pickUpPiece p .board (some pos))) := by
  obtain ⟨⟨h1, h2, h3, h4⟩, h5⟩ := hinv
  simp only [DragInv, hdrag] at h5
  rw [gr_pickup_board]
  refine ⟨⟨h1, h2, h3, h4⟩, pos, p, rfl, rfl, rfl, hp, ?_⟩
  rw [update_remove_eq, h5]

theorem dropPlace_inventory_inv {s : GameState} {d : DragState} {pos : BoardPosition}
    (h1 : (invIds s.inventory).Nodup)
    (h2 : (placedIds s.board.placedPieces).Nodup)
    (h3 : ∀ a ∈ invIds s.inventory, a ∉ placedIds s.board.placedPieces)
    (h4 : DisjointFootprints s.board.placedPieces)
    (hst : d.sourceType = .inventory)
    (hmemId : d.piece.id ∈ invIds s.inventory)
    (hocc : s.board.occupiedSegments = placedUnion s.board.placedPieces)
    (hc : checkCollision d.piece pos s.board.occupiedSegments = false) :
    Inv (dropPlace s d pos) := by
  have hB : Disjoint (footprint d.piece pos) (placedUnion s.board.placedPieces) := by
    have h := checkCollision_false_disjoint hc
    rwa [hocc] at h
  simp only [dropPlace, hst, reduceIte]
  refine ⟨⟨?_, ?_, ?_, ?_⟩, ?_⟩
  · exact List.Nodup.sublist (List.Sublist.map _ (List.filter_sublist _)) h1
  · rw [placedIds_append, List.nodup_append]
    refine ⟨h2, by simp [placedIds], ?_⟩
    intro a ha hb
    have : a = d.piece.id := by simpa [placedIds] using hb
    subst this
    exact h3 _ hmemId ha
  · intro a ha
    obtain ⟨q, hq, rfl⟩ := mem_invIds.mp ha
    have hq' := List.mem_filter.mp hq
    have hqne : q.id ≠ d.piece.id := by simpa using hq'.2
    rw [placedIds_append]
    intro hmem
    rcases List.mem_append.mp hmem with h | h
    · exact h3 q.id (mem_invIds.mpr ⟨q, hq'.1, rfl⟩) h
    · exact hqne (by simpa [placedIds] using h)
  · rw [DisjointFootprints, List.pairwise_append]
    refine ⟨h4, by simp, ?_⟩
    intro a ha b hb
    have hb' : b = (⟨d.piece, pos⟩ : PlacedPiece) := by simpa using hb
    subst hb'
    exact Finset.disjoint_of_subset_left (footprint_subset_placedUnion ha) hB.symm
  · show updateOccupiedSegments s.board.occupiedSegments d.piece pos .add
      = placedUnion (s.board.placedPieces ++ [⟨d.piece, pos⟩])
    rw [update_add_eq, hocc, placedUnion_append]
    simp [placedUnion, placedFootprint]

theorem dropPlace_board_inv {s : GameState} {d : DragState} {pos : BoardPosition}
    {sp : BoardPosition} {spc : Piece}
    (h1 : (invIds s.inventory).Nodup)
    (h2 : (placedIds s.board.placedPieces).Nodup)
    (h3 : ∀ a ∈ invIds s.inventory, a ∉ placedIds s.board.placedPieces)
    (h4 : DisjointFootprints s.board.placedPieces)
    (hst : d.sourceType = .board) (hsp : d.sourcePosition = some sp)
    (hid : d.piece.id = spc.id)
    (hmem : (⟨spc, sp⟩ : PlacedPiece) ∈ s.board.placedPieces)
    (hocc : s.board.occupiedSegments
      = placedUnion s.board.placedPieces \ footprint spc sp)
    (hc : checkCollision d.piece pos s.board.occupiedSegments = false) :
    Inv (dropPlace s d pos) := by
  obtain ⟨l₁, l₂, hleq⟩ := List.append_of_mem hmem
  have h2' := h2
  rw [hleq] at h2'
  have hfresh := nodup_decomp_ne h2'
  have hf₁ : ∀ x ∈ l₁, x.piece.id ≠ d.piece.id := by
    intro x hx; rw [hid]; exact hfresh.1 x hx
  have hf₂ : ∀ x ∈ l₂, x.piece.id ≠ d.piece.id := by
    intro x hx; rw [hid]; exact hfresh.2 x hx
  have he : (⟨spc, sp⟩ : PlacedPiece).piece.id = d.piece.id := hid.symm
  have h4' : DisjointFootprints (l₁ ++ ⟨spc, sp⟩ :: l₂) := by rw [← hleq]; exact h4
  have hB : Disjoint (footprint d.piece pos)
      (placedUnion s.board.placedPieces \ footprint spc sp) := by
    have h := checkCollision_false_disjoint hc
    rwa [hocc] at h
  obtain ⟨hp₁, hpc, hcross⟩ := List.pairwise_append.mp h4'
  obtain ⟨hce, hp₂⟩ := List.pairwise_cons.mp hpc
  -- footprints of the untouched entries stay inside the provisional occupancy
  have hsub : ∀ x ∈ l₁ ++ l₂,
      placedFootprint x ⊆ placedUnion s.board.placedPieces \ footprint spc sp := by
    intro x hx
    rcases List.mem_append.mp hx with hx₁ | hx₂
    · refine Finset.subset_sdiff.mpr ⟨?_, ?_⟩
      · exact footprint_subset_placedUnion
          (by rw [hleq]; exact List.mem_append_left _ hx₁)
      · exact (hcross x hx₁ ⟨spc, sp⟩ (List.mem_cons_self _ l₂)).symm.symm
    · refine Finset.subset_sdiff.mpr ⟨?_, ?_⟩
      · exact footprint_subset_placedUnion
          (by rw [hleq]; exact List.mem_append_right _ (List.mem_cons_of_mem _ hx₂))
      · exact (hce x hx₂).symm
  simp only [dropPlace, hst, hsp]
  rw [if_neg (by decide : ¬(SourceType.board = SourceType.inventory))]
  rw [hleq, map_replace_decomp hf₁ hf₂ he]
  refine ⟨⟨h1, ?_, ?_, ?_⟩, ?_⟩
  · have hids : placedIds (l₁ ++ (⟨d.piece, pos⟩ : PlacedPiece) :: l₂)
        = placedIds (l₁ ++ (⟨spc, sp⟩ : PlacedPiece) :: l₂) := by
      simp [placedIds, hid]
    rw [hids]
    exact h2'
  · intro a ha
    have hids : placedIds (l₁ ++ (⟨d.piece, pos⟩ : PlacedPiece) :: l₂)
        = placedIds (l₁ ++ (⟨spc, sp⟩ : PlacedPiece) :: l₂) := by
      simp [placedIds, hid]
    rw [hids, ← hleq]
    exact h3 a ha
  · rw [DisjointFootprints, List.pairwise_append]
    refine ⟨hp₁, List.pairwise_cons.mpr ⟨?_, hp₂⟩, ?_⟩
    · intro b hb
      exact Finset.disjoint_of_subset_right
        (hsub b (List.mem_append_right _ hb)) hB
    · intro a ha b hb
      rcases List.mem_cons.mp hb with hb' | hb'
      · subst hb'
        exact (Finset.disjoint_of_subset_right
          (hsub a (List.mem_append_left _ ha)) hB).symm
      · exact hcross a ha b (List.mem_cons_of_mem _ hb')
  · show updateOccupiedSegments s.board.occupiedSegments d.piece pos .add
      = placedUnion (l₁ ++ (⟨d.piece, pos⟩ : PlacedPiece) :: l₂)
    rw [update_add_eq, hocc, hleq]
    have hsd2 : placedUnion (l₁ ++ (⟨spc, sp⟩ : PlacedPiece) :: l₂) \ footprint spc sp
        = placedUnion (l₁ ++ l₂) := sdiff_decomp h4'
    rw [hsd2, placedUnion_decomp, placedUnion_append, Finset.union_assoc,
      Finset.union_comm (placedUnion l₂) (footprint d.piece pos)]
    rfl

theorem drop_inv {s : GameState} {pos : BoardPosition} (hinv : Inv s) :
    Inv (gameReducer s (.dropPiece pos)) := by
  obtain ⟨⟨h1, h2, h3, h4⟩, h5⟩ := hinv
  rcases hsd : s.dragState with _ | d
  · simp only [gameReducer, hsd]
    exact ⟨⟨h1, h2, h3, h4⟩, h5⟩
  · simp only [gameReducer, hsd]
    obtain ⟨dp, dst, dsp, dspc⟩ := d
    cases dst with
    | inventory =>
      simp only [DragInv, hsd] at h5
      obtain ⟨hsp, hspc, hmemId, hocc⟩ := h5
      cases hc : checkCollision dp pos s.board.occupiedSegments with
      | false =>
        rw [if_neg (by decide : ¬(false = true))]
        exact dropPlace_inventory_inv h1 h2 h3 h4 rfl hmemId hocc hc
      | true =>
        rw [if_pos rfl, if_pos rfl]
        exact ⟨⟨h1, h2, h3, h4⟩, hocc⟩
    | board =>
      simp only [DragInv, hsd] at h5
      obtain ⟨sp, spc, hsp, hspc, hid, hmem, hocc⟩ := h5
      cases hc : checkCollision dp pos s.board.occupiedSegments with
      | false =>
        rw [if_neg (by decide : ¬(false = true))]
        exact dropPlace_board_inv h1 h2 h3 h4 rfl hsp hid hmem hocc hc
      | true =>
        rw [if_pos rfl, if_neg (by simp)]
        simp only [hsp, hspc, Option.getD_some]
        refine ⟨⟨h1, h2, h3, h4⟩, ?_⟩
        show updateOccupiedSegments s.board.occupiedSegments spc sp .add
          = placedUnion s.board.placedPieces
        have hsub : footprint spc sp ⊆ placedUnion s.board.placedPieces :=
          footprint_subset_placedUnion hmem
        rw [update_add_eq, hocc, Finset.sdiff_union_of_subset hsub]

theorem cancel_inv {s : GameState} (hinv : Inv s) : Inv (gameReducer s .cancelDrag) := by
  obtain ⟨⟨h1, h2, h3, h4⟩, h5⟩ := hinv
  rcases hsd : s.dragState with _ | d
  · simp only [gameReducer, hsd]
    exact ⟨⟨h1, h2, h3, h4⟩, h5⟩
  · simp only [gameReducer, hsd]
    obtain ⟨dp, dst, dsp, dspc⟩ := d
    cases dst with
    | inventory =>
      simp only [DragInv, hsd] at h5
      obtain ⟨hsp, hspc, hmemId, hocc⟩ := h5
      rw [if_pos rfl]
      exact ⟨⟨h1, h2, h3, h4⟩, hocc⟩
    | board =>
      simp only [DragInv, hsd] at h5
      obtain ⟨sp, spc, hsp, hspc, hid, hmem, hocc⟩ := h5
      rw [if_neg (by simp)]
      simp only [hsp, hspc, Option.getD_some]
      refine ⟨⟨h1, h2, h3, h4⟩, ?_⟩
      show updateOccupiedSegments s.board.occupiedSegments spc sp .add
        = placedUnion s.board.placedPieces
      have hsub : footprint spc sp ⊆ placedUnion s.board.placedPieces :=
        footprint_subset_placedUnion hmem
      rw [update_add_eq, hocc, Finset.sdiff_union_of_subset hsub]

theorem rotate_inv {s : GameState} {pid : String} {dir : Direction} (hinv : Inv s) :
    Inv (gameReducer s (.rotatePieceAct pid dir)) := by
  obtain ⟨⟨h1, h2, h3, h4⟩, h5⟩ := hinv
  simp only [gameReducer]
  split
  · exact ⟨⟨h1, h2, h3, h4⟩, h5⟩
  · refine ⟨⟨?_, h2, ?_, h4⟩, ?_⟩
    · rw [invIds_rotateFirstMatch]; exact h1
    · intro a ha
      rw [invIds_rotateFirstMatch] at ha
      exact h3 a ha
    · rcases hsd : s.dragState with _ | d
      · simp only [hsd]
        simp only [DragInv, hsd] at h5
        exact h5
      · obtain ⟨dp, dst, dsp, dspc⟩ := d
        simp only [hsd]
        cases dst with
        | inventory =>
          simp only [DragInv, hsd] at h5
          obtain ⟨ha', hb', hmemid, hocc⟩ := h5
          by_cases hm : dp.id = pid
          · rw [if_pos hm]
            exact ⟨ha', hb',
              by rw [rotatePiece_id, invIds_rotateFirstMatch]; exact hmemid, hocc⟩
          · rw [if_neg hm]
            exact ⟨ha', hb', by rw [invIds_rotateFirstMatch]; exact hmemid, hocc⟩
        | board =>
          simp only [DragInv, hsd] at h5
          obtain ⟨sp, spc, hsp, hspc, hid, hmem, hocc⟩ := h5
          by_cases hm : dp.id = pid
          · rw [if_pos hm]
            exact ⟨sp, spc, hsp, hspc, by rw [rotatePiece_id]; exact hid, hmem, hocc⟩
          · rw [if_neg hm]
            exact ⟨sp, spc, hsp, hspc, hid, hmem, hocc⟩

theorem return_inv {s : GameState} {p : Piece}
    (hguard : ∀ d, s.dragState = some d → d.sourceType = .board → p.id = d.piece.id)
    (hinv : Inv s) : Inv (gameReducer s (.returnToInventory p)) := by
  obtain ⟨⟨h1, h2, h3, h4⟩, h5⟩ := hinv
  simp only [gameReducer]
  rcases hsd : s.dragState with _ | d
  · -- no active drag: the general board-removal path
    simp only [hsd]
    simp only [DragInv, hsd] at h5
    rw [if_neg (by decide : ¬(false = true))]
    rcases hfind : List.find? (fun pp => decide (pp.piece.id = p.id)) s.board.placedPieces
      with _ | e
    · -- no matching placed entry
      rw [hfind]
      have hnone : ∀ pp ∈ s.board.placedPieces, pp.piece.id ≠ p.id := by
        intro pp hpp
        have h := List.find?_eq_none.mp hfind pp hpp
        simpa using h
      have hfilter : (s.board.placedPieces.filter fun pp => pp.piece.id ≠ p.id)
          = s.board.placedPieces :=
        List.filter_eq_self.mpr fun x hx => by simpa using hnone x hx
      rw [hfilter]
      cases hany : s.inventory.any fun q => q.id = p.id with
      | true =>
        rw [if_pos rfl]
        exact ⟨⟨h1, h2, h3, h4⟩, h5⟩
      | false =>
        rw [if_neg (by decide : ¬(false = true))]
        have hnotin : p.id ∉ invIds s.inventory := by
          intro hmem
          have h := any_id_eq_true.mpr hmem
          rw [hany] at h
          cases h
        refine ⟨⟨?_, h2, ?_, h4⟩, ?_⟩
        · rw [invIds_append, List.nodup_append]
          refine ⟨h1, by simp [invIds], ?_⟩
          intro a ha hb
          have : a = p.id := by simpa [invIds] using hb
          subst this
          exact hnotin ha
        · intro a ha
          rw [invIds_append] at ha
          rcases List.mem_append.mp ha with ha' | ha'
          · exact h3 a ha'
          · have : a = p.id := by simpa [invIds] using ha'
            subst this
            intro hmem'
            obtain ⟨e', he', hid'⟩ := mem_placedIds.mp hmem'
            exact hnone e' he' hid'
        · exact h5
    · -- a placed entry with this id is removed and freed
      rw [hfind]
      have he_mem : e ∈ s.board.placedPieces := List.mem_of_find?_eq_some hfind
      have he_id : e.piece.id = p.id := by simpa using List.find?_some hfind
      obtain ⟨l₁, l₂, hleq⟩ := List.append_of_mem he_mem
      have h2' := h2
      rw [hleq] at h2'
      have hfresh := nodup_decomp_ne h2'
      have hf₁ : ∀ x ∈ l₁, x.piece.id ≠ p.id := fun x hx => by
        rw [← he_id]; exact hfresh.1 x hx
      have hf₂ : ∀ x ∈ l₂, x.piece.id ≠ p.id := fun x hx => by
        rw [← he_id]; exact hfresh.2 x hx
      have h4' : DisjointFootprints (l₁ ++ e :: l₂) := by rw [← hleq]; exact h4
      have hsub : (l₁ ++ l₂).Sublist (l₁ ++ e :: l₂) :=
        (List.sublist_cons_self e l₂).append_left l₁
      have hpin : p.id ∈ placedIds s.board.placedPieces :=
        mem_placedIds.mpr ⟨e, he_mem, he_id⟩
      have hnotin : p.id ∉ invIds s.inventory := fun hmem => h3 _ hmem hpin
      have hany : (s.inventory.any fun q => q.id = p.id) = false := by
        cases hA : s.inventory.any fun q => q.id = p.id with
        | false => rfl
        | true => exact absurd (any_id_eq_true.mp hA) hnotin
      rw [hany, if_neg (by decide : ¬(false = true)), hleq,
        filter_decomp hf₁ hf₂ he_id]
      refine ⟨⟨?_, ?_, ?_, ?_⟩, ?_⟩
      · rw [invIds_append, List.nodup_append]
        refine ⟨h1, by simp [invIds], ?_⟩
        intro a ha hb
        have : a = p.id := by simpa [invIds] using hb
        subst this
        exact hnotin ha
      · exact List.Nodup.sublist (List.Sublist.map _ hsub) h2'
      · intro a ha
        rw [invIds_append] at ha
        rcases List.mem_append.mp ha with ha' | ha'
        · intro hmem'
          obtain ⟨e', he', hid'⟩ := mem_placedIds.mp hmem'
          refine h3 a ha' (mem_placedIds.mpr ⟨e', ?_, hid'⟩)
          rw [hleq]
          exact hsub.mem he'
        · have : a = p.id := by simpa [invIds] using ha'
          subst this
          intro hmem'
          obtain ⟨e', he', hid'⟩ := mem_placedIds.mp hmem'
          rcases List.mem_append.mp he' with h' | h'
          · exact hf₁ e' h' hid'
          · exact hf₂ e' h' hid'
      · exact List.Pairwise.sublist hsub h4'
      · show updateOccupiedSegments s.board.occupiedSegments e.piece e.position .remove
          = placedUnion (l₁ ++ l₂)
        have hsd2 : placedUnion (l₁ ++ e :: l₂) \ footprint e.piece e.position
            = placedUnion (l₁ ++ l₂) := sdiff_decomp h4'
        rw [update_remove_eq, h5, hleq, hsd2]
  · obtain ⟨dp, dst, dsp, dspc⟩ := d
    cases dst with
    | inventory =>
      simp only [DragInv, hsd] at h5
      obtain ⟨ha', hb', hmemid, hocc⟩ := h5
      simp only [hsd]
      rw [if_pos (show decide True = true from rfl)]
      exact ⟨⟨h1, h2, h3, h4⟩, hocc⟩
    | board =>
      simp only [DragInv, hsd] at h5
      obtain ⟨sp, spc, hsp, hspc, hid, hmem, hocc⟩ := h5
      have hpid : p.id = dp.id := hguard ⟨dp, .board, dsp, dspc⟩ hsd rfl
      have hpe : p.id = spc.id := hpid.trans hid
      simp only [hsd]
      rw [if_neg (show ¬(decide (SourceType.board = SourceType.inventory) = true)
        from by decide)]
      obtain ⟨l₁, l₂, hleq⟩ := List.append_of_mem hmem
      have h2' := h2
      rw [hleq] at h2'
      have hfresh := nodup_decomp_ne h2'
      have hf₁ : ∀ x ∈ l₁, x.piece.id ≠ p.id := fun x hx => by
        rw [hpe]; exact hfresh.1 x hx
      have hf₂ : ∀ x ∈ l₂, x.piece.id ≠ p.id := fun x hx => by
        rw [hpe]; exact hfresh.2 x hx
      have he_id : (⟨spc, sp⟩ : PlacedPiece).piece.id = p.id := hpe.symm
      have h4' : DisjointFootprints (l₁ ++ (⟨spc, sp⟩ : PlacedPiece) :: l₂) := by
        rw [← hleq]; exact h4
      have hsub : (l₁ ++ l₂).Sublist (l₁ ++ (⟨spc, sp⟩ : PlacedPiece) :: l₂) :=
        (List.sublist_cons_self _ l₂).append_left l₁
      have hfind : List.find? (fun pp => decide (pp.piece.id = p.id)) s.board.placedPieces
          = some ⟨spc, sp⟩ := by
        rw [hleq]; exact find?_decomp hf₁ he_id
      have hpin : p.id ∈ placedIds s.board.placedPieces :=
        mem_placedIds.mpr ⟨⟨spc, sp⟩, hmem, hpe.symm⟩
      have hnotin : p.id ∉ invIds s.inventory := fun hmem => h3 _ hmem hpin
      have hany : (s.inventory.any fun q => q.id = p.id) = false := by
        cases hA : s.inventory.any fun q => q.id = p.id with
        | false => rfl
        | true => exact absurd (any_id_eq_true.mp hA) hnotin
      rw [hfind, hany, if_neg (by decide : ¬(false = true)), hleq,
        filter_decomp hf₁ hf₂ he_id]
      refine ⟨⟨?_, ?_, ?_, ?_⟩, ?_⟩
      · rw [invIds_append, List.nodup_append]
        refine ⟨h1, by simp [invIds], ?_⟩
        intro a ha hb
        have : a = p.id := by simpa [invIds] using hb
        subst this
        exact hnotin ha
      · exact List.Nodup.sublist (List.Sublist.map _ hsub) h2'
      · intro a ha
        rw [invIds_append] at ha
        rcases List.mem_append.mp ha with ha' | ha'
        · intro hmem'
          obtain ⟨e', he', hid'⟩ := mem_placedIds.mp hmem'
          refine h3 a ha' (mem_placedIds.mpr ⟨e', ?_, hid'⟩)
          rw [hleq]
          exact hsub.mem he'
        · have : a = p.id := by simpa [invIds] using ha'
          subst this
          intro hmem'
          obtain ⟨e', he', hid'⟩ := mem_placedIds.mp hmem'
          rcases List.mem_append.mp he' with h' | h'
          · exact hf₁ e' h' hid'
          · exact hf₂ e' h' hid'
      · exact List.Pairwise.sublist hsub h4'
      · show updateOccupiedSegments s.board.occupiedSegments spc sp .remove
          = placedUnion (l₁ ++ l₂)
        have hsd2 : placedUnion (l₁ ++ (⟨spc, sp⟩ : PlacedPiece) :: l₂) \ footprint spc sp
            = placedUnion (l₁ ++ l₂) := sdiff_decomp h4'
        rw [update_remove_eq, hocc, hleq, Finset.sdiff_idem, hsd2]

/-- Every well-formed step preserves the invariant. -/
theorem wfStep_preserves {s s' : GameState} (hstep : WfStep s s') (hinv : Inv s) :
    Inv s' := by
  cases hstep with
  | pickupInventory p hdrag hp => exact pickup_inventory_inv hinv hdrag hp
  | pickupBoard p pos hdrag hp => exact pickup_board_inv hinv hdrag hp
  | drop pos => exact drop_inv hinv
  | cancel => exact cancel_inv hinv
  | rotate pid dir => exact rotate_inv hinv
  | returnInv p hguard => exact return_inv hguard hinv
  | reset => exact inv_init

/-- Every reachable state satisfies the invariant. -/
theorem reachable_inv {s : GameState} (h : Reachable s) : Inv s := by
  induction h with
  | init => exact inv_init
  | step _ hstep ih => exact wfStep_preserves hstep ih

/-! ### Claim theorems -/

/-- C5: the 90-degree clockwise rotation maps a horizontal segment at
`(x, y)` to the vertical segment at `(y, -x-1)` and a vertical segment at
`(x, y)` to the horizontal segment at `(y, -x)`. -/
theorem c5_rotateSegment90CW_maps (x y : Int) :
    rotateSegment90Clockwise ⟨x, y, .horizontal⟩ = ⟨y, -x - 1, .vertical⟩ ∧
    rotateSegment90Clockwise ⟨x, y, .vertical⟩ = ⟨y, -x, .horizontal⟩ :=
  ⟨rfl, rfl⟩

/-- C6: the collision check returns true if and only if some absolute
segment of the piece at the position lies outside the valid range for its
orientation (horizontal: `0 ≤ x ≤ 4`, `0 ≤ y ≤ 4`; vertical: `0 ≤ x ≤ 5`,
`0 ≤ y ≤ 3`) or has an identity already present in the occupied set. -/
theorem c6_checkCollision_iff (piece : Piece) (position : BoardPosition)
    (occupied : Finset SegmentId) :
    checkCollision piece position occupied = true ↔
      ∃ seg ∈ getPieceSegmentPositions piece position,
        (seg.orientation = .horizontal ∧
          ¬(0 ≤ seg.x ∧ seg.x ≤ 4 ∧ 0 ≤ seg.y ∧ seg.y ≤ 4)) ∨
        (seg.orientation = .vertical ∧
          ¬(0 ≤ seg.x ∧ seg.x ≤ 5 ∧ 0 ≤ seg.y ∧ seg.y ≤ 3)) ∨
        segmentToId seg ∈ occupied := by
  rw [checkCollision, List.any_eq_true]
  refine exists_congr fun seg => and_congr_right fun _ => ?_
  obtain ⟨sx, sy, so⟩ := seg
  cases so with
  | horizontal =>
    have hoob : segmentOutOfBounds ⟨sx, sy, .horizontal⟩ = true ↔
        ¬(0 ≤ sx ∧ sx ≤ 4 ∧ 0 ≤ sy ∧ sy ≤ 4) := by
      simp only [segmentOutOfBounds, Bool.or_eq_true, decide_eq_true_eq]
      omega
    rw [Bool.or_eq_true, decide_eq_true_eq, hoob]
    constructor
    · rintro (hmem | hout)
      · exact Or.inr (Or.inr hmem)
      · exact Or.inl ⟨rfl, hout⟩
    · rintro (⟨_, hout⟩ | ⟨hcon, _⟩ | hmem)
      · exact Or.inr hout
      · exact Orientation.noConfusion hcon
      · exact Or.inl hmem
  | vertical =>
    have hoob : segmentOutOfBounds ⟨sx, sy, .vertical⟩ = true ↔
        ¬(0 ≤ sx ∧ sx ≤ 5 ∧ 0 ≤ sy ∧ sy ≤ 3) := by
      simp only [segmentOutOfBounds, Bool.or_eq_true, decide_eq_true_eq]
      omega
    rw [Bool.or_eq_true, decide_eq_true_eq, hoob]
    constructor
    · rintro (hmem | hout)
      · exact Or.inr (Or.inr hmem)
      · exact Or.inr (Or.inl ⟨rfl, hout⟩)
    · rintro (⟨hcon, _⟩ | ⟨_, hout⟩ | hmem)
      · exact Orientation.noConfusion hcon
      · exact Or.inr hout
      · exact Or.inl hmem

/-- C3 counterexample: the derived segment list of digit 1 at rotation 0 is
the base pattern unchanged, whose minimum x coordinate is 1, not 0. -/
theorem c3_counterexample :
    ¬(minList ((rotateSegments (SEGMENT_PATTERNS 1) 0).map Segment.x) = 0 ∧
      minList ((rotateSegments (SEGMENT_PATTERNS 1) 0).map Segment.y) = 0) := by
  decide

/-- C3 amended: for rotations 90, 180 and 270 the derived segment list of
every digit is normalized so its minimum x and minimum y are 0; rotation 0
is an identity short-circuit returning the base pattern unchanged, whose
minimum is `(0,0)` for every digit except digit 1, whose base pattern has
minimum x equal to 1 (and minimum y equal to 0). -/
theorem c3_normalization_amended (d : Nat) (hd : d ≤ 9) :
    (∀ r : Int, (r = 90 ∨ r = 180 ∨ r = 270) →
      minList ((rotateSegments (SEGMENT_PATTERNS d) r).map Segment.x) = 0 ∧
      minList ((rotateSegments (SEGMENT_PATTERNS d) r).map Segment.y) = 0) ∧
    rotateSegments (SEGMENT_PATTERNS d) 0 = SEGMENT_PATTERNS d ∧
    (d ≠ 1 →
      minList ((rotateSegments (SEGMENT_PATTERNS d) 0).map Segment.x) = 0 ∧
      minList ((rotateSegments (SEGMENT_PATTERNS d) 0).map Segment.y) = 0) ∧
    (d = 1 →
      minList ((rotateSegments (SEGMENT_PATTERNS d) 0).map Segment.x) = 1 ∧
      minList ((rotateSegments (SEGMENT_PATTERNS d) 0).map Segment.y) = 0) := by
  interval_cases d <;>
    refine ⟨?_, by decide, by decide, by decide⟩ <;>
    rintro r (rfl | rfl | rfl) <;>
    exact ⟨by decide, by decide⟩

theorem c3_normalization_amended_witness :
    (2 : Nat) ≤ 9 ∧
    ((90 : Int) = 90 ∨ (90 : Int) = 180 ∨ (90 : Int) = 270) ∧
    (minList ((rotateSegments (SEGMENT_PATTERNS 2) 90).map Segment.x) = 0 ∧
     minList ((rotateSegments (SEGMENT_PATTERNS 2) 90).map Segment.y) = 0) :=
  ⟨by decide, Or.inl rfl, (c3_normalization_amended 2 (by decide)).1 90 (Or.inl rfl)⟩

/-- C4: for a piece whose segments are the derived view of its
`(number, rotation)`, four clockwise `rotatePiece` steps — and four
counterclockwise steps — give back exactly the original piece (rotation and
segment list included). -/
theorem c4_rotate_four_identity (p : Piece) (hn : p.number ≤ 9)
    (hr : p.rotation = 0 ∨ p.rotation = 90 ∨ p.rotation = 180 ∨ p.rotation = 270)
    (hs : p.segments = getPieceSegments p) :
    rotatePiece (rotatePiece (rotatePiece (rotatePiece p .clockwise) .clockwise)
        .clockwise) .clockwise = p ∧
    rotatePiece (rotatePiece (rotatePiece (rotatePiece p .counterclockwise)
        .counterclockwise) .counterclockwise) .counterclockwise = p := by
  obtain ⟨pid, n, r, segs⟩ := p
  have hn' : n ≤ 9 := hn
  have hr' : r = 0 ∨ r = 90 ∨ r = 180 ∨ r = 270 := hr
  have hs' : segs = rotateSegments (SEGMENT_PATTERNS n) r := hs
  subst hs'
  clear hn hr hs
  rcases hr' with rfl | rfl | rfl | rfl <;> interval_cases n <;> exact ⟨rfl, rfl⟩

theorem c4_rotate_four_identity_witness :
    (⟨"piece-3", 3, 90, rotateSegments (SEGMENT_PATTERNS 3) 90⟩ : Piece).number ≤ 9 ∧
    ((⟨"piece-3", 3, 90, rotateSegments (SEGMENT_PATTERNS 3) 90⟩ : Piece).rotation = 0 ∨
     (⟨"piece-3", 3, 90, rotateSegments (SEGMENT_PATTERNS 3) 90⟩ : Piece).rotation = 90 ∨
     (⟨"piece-3", 3, 90, rotateSegments (SEGMENT_PATTERNS 3) 90⟩ : Piece).rotation = 180 ∨
     (⟨"piece-3", 3, 90, rotateSegments (SEGMENT_PATTERNS 3) 90⟩ : Piece).rotation = 270) ∧
    rotatePiece (rotatePiece (rotatePiece (rotatePiece
      (⟨"piece-3", 3, 90, rotateSegments (SEGMENT_PATTERNS 3) 90⟩ : Piece) .clockwise)
      .clockwise) .clockwise) .clockwise
      = (⟨"piece-3", 3, 90, rotateSegments (SEGMENT_PATTERNS 3) 90⟩ : Piece) :=
  ⟨by decide, Or.inr (Or.inl rfl),
    (c4_rotate_four_identity _ (by decide) (Or.inr (Or.inl rfl)) rfl).1⟩

/-- C8: from the initial state, picking up `piece-1` (digit 1) from the
inventory and dropping it at `(2,1)` leaves 9 inventory pieces (none of them
`piece-1`), a single placed entry `{piece-1, (2,1)}`, and occupied segments
exactly `{(3,1,v), (3,2,v)}`. -/
theorem c8_concrete_scenario :
    (let s2 := gameReducer
        (gameReducer getInitialState
          (.pickUpPiece ⟨"piece-1", 1, 0, SEGMENT_PATTERNS 1⟩ .inventory none))
        (.dropPiece ⟨2, 1⟩);
     s2.inventory.length = 9 ∧
     (∀ q ∈ s2.inventory, q.id ≠ "piece-1") ∧
     s2.board.placedPieces
       = [⟨⟨"piece-1", 1, 0, SEGMENT_PATTERNS 1⟩, ⟨2, 1⟩⟩] ∧
     s2.board.occupiedSegments = {"3,1,v", "3,2,v"}) := by
  refine ⟨by decide, by decide, by decide, by decide⟩

/-- C1 counterexample: the reducer accepts a board-source pickup for a piece
that is not placed anywhere; from the initial state, picking up a digit-1
piece claiming board position `(0,0)` and then cancelling yields a state
with no drag whose occupied set is nonempty while no piece is placed. -/
theorem c1_counterexample :
    (let s2 := gameReducer
        (gameReducer getInitialState
          (.pickUpPiece ⟨"piece-1", 1, 0, SEGMENT_PATTERNS 1⟩ .board (some ⟨0, 0⟩)))
        .cancelDrag;
     s2.dragState = none ∧
     s2.board.placedPieces = [] ∧
     s2.board.occupiedSegments ≠ placedUnion s2.board.placedPieces) := by
  refine ⟨rfl, rfl, by decide⟩

/-- C1 amended: restricted to well-formed action sequences (pickups only
while no drag is active and only of a piece actually present at the claimed
source, returns during a board-source drag only for the dragged piece, no
`LOAD_STATE`), every reachable state with `dragState = null` has
`occupiedSegments` equal to exactly the union of the absolute segment
identities of all placed pieces, the board-source pickup window being the
only exception while `dragState` is non-null. -/
theorem c1_occupancy_invariant_amended {s : GameState} (h : Reachable s)
    (hdrag : s.dragState = none) :
    s.board.occupiedSegments = placedUnion s.board.placedPieces := by
  obtain ⟨_, h5⟩ := reachable_inv h
  simpa only [DragInv, hdrag] using h5

theorem c1_occupancy_invariant_amended_witness :
    (let s2 := gameReducer
        (gameReducer getInitialState
          (.pickUpPiece ⟨"piece-1", 1, 0, SEGMENT_PATTERNS 1⟩ .inventory none))
        (.dropPiece ⟨2, 1⟩);
     Reachable s2 ∧ s2.dragState = none ∧
     s2.board.occupiedSegments = placedUnion s2.board.placedPieces) :=
  have hreach : Reachable (gameReducer
      (gameReducer getInitialState
        (.pickUpPiece ⟨"piece-1", 1, 0, SEGMENT_PATTERNS 1⟩ .inventory none))
      (.dropPiece ⟨2, 1⟩)) :=
    Reachable.step
      (Reachable.step Reachable.init
        (WfStep.pickupInventory _ _ rfl (by decide)))
      (WfStep.drop _ ⟨2, 1⟩)
  ⟨hreach, rfl, c1_occupancy_invariant_amended hreach rfl⟩

/-- C2 counterexample: picking up `piece-0` from the inventory leaves it in
the inventory while it is also the drag-state piece, so a piece id can be in
two of the three locations at once; the state is reachable even under
well-formed actions. -/
theorem c2_counterexample :
    (let s1 := gameReducer getInitialState
        (.pickUpPiece ⟨"piece-0", 0, 0, SEGMENT_PATTERNS 0⟩ .inventory none);
     Reachable s1 ∧
     s1.dragState
       = some ⟨⟨"piece-0", 0, 0, SEGMENT_PATTERNS 0⟩, .inventory, none, none⟩ ∧
     "piece-0" ∈ invIds s1.inventory) :=
  ⟨Reachable.step Reachable.init (WfStep.pickupInventory _ _ rfl (by decide)),
    rfl, by decide⟩

/-- C2 amended: in every well-formed reachable state no piece id is
simultaneously in the inventory and in `placedPieces`; the drag state
aliases rather than owns its piece: during an inventory-source drag the
dragged id is still present in the inventory, and during a board-source drag
it is still present in `placedPieces`. -/
theorem c2_ownership_amended {s : GameState} (h : Reachable s) :
    (∀ q ∈ s.inventory, ∀ e ∈ s.board.placedPieces, q.id ≠ e.piece.id) ∧
    (∀ d, s.dragState = some d →
      (d.sourceType = .inventory → d.piece.id ∈ invIds s.inventory) ∧
      (d.sourceType = .board → d.piece.id ∈ placedIds s.board.placedPieces)) := by
  obtain ⟨⟨h1, h2, h3, h4⟩, h5⟩ := reachable_inv h
  constructor
  · intro q hq e he heq
    exact h3 q.id (mem_invIds.mpr ⟨q, hq, rfl⟩) (mem_placedIds.mpr ⟨e, he, heq.symm⟩)
  · intro d hd
    obtain ⟨dp, dst, dsp, dspc⟩ := d
    cases dst with
    | inventory =>
      simp only [DragInv, hd] at h5
      exact ⟨fun _ => h5.2.2.1, fun hcon => SourceType.noConfusion hcon⟩
    | board =>
      simp only [DragInv, hd] at h5
      obtain ⟨sp, spc, hsp, hspc, hid, hmem, hocc⟩ := h5
      refine ⟨fun hcon => SourceType.noConfusion hcon, fun _ => ?_⟩
      exact mem_placedIds.mpr ⟨⟨spc, sp⟩, hmem, hid.symm⟩

theorem c2_ownership_amended_witness :
    (let s1 := gameReducer getInitialState
        (.pickUpPiece ⟨"piece-0", 0, 0, SEGMENT_PATTERNS 0⟩ .inventory none);
     Reachable s1 ∧
     (∀ q ∈ s1.inventory, ∀ e ∈ s1.board.placedPieces, q.id ≠ e.piece.id)) :=
  have hreach : Reachable (gameReducer getInitialState
      (.pickUpPiece ⟨"piece-0", 0, 0, SEGMENT_PATTERNS 0⟩ .inventory none)) :=
    Reachable.step Reachable.init (WfStep.pickupInventory _ _ rfl (by decide))
  ⟨hreach, (c2_ownership_amended hreach).1⟩

/-- C7: in every well-formed reachable state with an active drag, a Drop at
a colliding position leaves inventory and placedPieces at their pre-drop
values and clears dragState, with the dragged piece back at its prior
location: for an inventory source the occupied set is unchanged and the
piece is still an inventory entry; for a board source the snapshot's
occupancy is re-added at the source position, restoring exactly the union of
the placed footprints. -/
theorem c7_failed_drop_reverts {s : GameState} {d : DragState} {pos : BoardPosition}
    (h : Reachable s) (hd : s.dragState = some d)
    (hc : checkCollision d.piece pos s.board.occupiedSegments = true) :
    (gameReducer s (.dropPiece pos)).inventory = s.inventory ∧
    (gameReducer s (.dropPiece pos)).board.placedPieces = s.board.placedPieces ∧
    (gameReducer s (.dropPiece pos)).dragState = none ∧
    (d.sourceType = .inventory →
      (gameReducer s (.dropPiece pos)).board.occupiedSegments
        = s.board.occupiedSegments ∧
      d.piece.id ∈ invIds s.inventory) ∧
    (d.sourceType = .board → ∃ sp spc,
      d.sourcePosition = some sp ∧ d.sourcePiece = some spc ∧
      (⟨spc, sp⟩ : PlacedPiece) ∈ s.board.placedPieces ∧
      (gameReducer s (.dropPiece pos)).board.occupiedSegments
        = s.board.occupiedSegments ∪ footprint spc sp ∧
      (gameReducer s (.dropPiece pos)).board.occupiedSegments
        = placedUnion s.board.placedPieces) := by
  obtain ⟨⟨h1, h2, h3, h4⟩, h5⟩ := reachable_inv h
  obtain ⟨dp, dst, dsp, dspc⟩ := d
  have hc' : checkCollision dp pos s.board.occupiedSegments = true := hc
  cases dst with
  | inventory =>
    simp only [DragInv, hd] at h5
    obtain ⟨hsp, hspc, hmemId, hocc⟩ := h5
    have hred : gameReducer s (.dropPiece pos) = { s with dragState := none } := by
      simp only [gameReducer, hd]
      rw [if_pos hc', if_pos trivial]
    rw [hred]
    exact ⟨rfl, rfl, rfl, fun _ => ⟨rfl, hmemId⟩,
      fun hcon => SourceType.noConfusion hcon⟩
  | board =>
    simp only [DragInv, hd] at h5
    obtain ⟨sp, spc, hsp, hspc, hid, hmem, hocc⟩ := h5
    have hred : gameReducer s (.dropPiece pos)
        = { s with
            board := { s.board with occupiedSegments :=
              updateOccupiedSegments s.board.occupiedSegments spc sp .add },
            dragState := none } := by
      simp only [gameReducer, hd]
      rw [if_pos hc', if_neg (by simp)]
      simp only [hsp, hspc, Option.getD_some]
    rw [hred]
    refine ⟨rfl, rfl, rfl, fun hcon => SourceType.noConfusion hcon, fun _ => ?_⟩
    have hsub : footprint spc sp ⊆ placedUnion s.board.placedPieces :=
      footprint_subset_placedUnion hmem
    refine ⟨sp, spc, hsp, hspc, hmem, update_add_eq _ _ _, ?_⟩
    show updateOccupiedSegments s.board.occupiedSegments spc sp .add
      = placedUnion s.board.placedPieces
    rw [update_add_eq, hocc, Finset.sdiff_union_of_subset hsub]

theorem c7_failed_drop_reverts_witness :
    (let p1 : Piece := ⟨"piece-1", 1, 0, SEGMENT_PATTERNS 1⟩;
     let s1 := gameReducer getInitialState (.pickUpPiece p1 .inventory none);
     Reachable s1 ∧
     s1.dragState = some ⟨p1, .inventory, none, none⟩ ∧
     checkCollision p1 ⟨10, 10⟩ s1.board.occupiedSegments = true ∧
     (gameReducer s1 (.dropPiece ⟨10, 10⟩)).inventory = s1.inventory ∧
     (gameReducer s1 (.dropPiece ⟨10, 10⟩)).board.placedPieces
       = s1.board.placedPieces ∧
     (gameReducer s1 (.dropPiece ⟨10, 10⟩)).dragState = none) :=
  have hreach : Reachable (gameReducer getInitialState
      (.pickUpPiece ⟨"piece-1", 1, 0, SEGMENT_PATTERNS 1⟩ .inventory none)) :=
    Reachable.step Reachable.init (WfStep.pickupInventory _ _ rfl (by decide))
  have hcol : checkCollision ⟨"piece-1", 1, 0, SEGMENT_PATTERNS 1⟩ ⟨10, 10⟩
      (gameReducer getInitialState
        (.pickUpPiece ⟨"piece-1", 1, 0, SEGMENT_PATTERNS 1⟩ .inventory
          none)).board.occupiedSegments = true := by decide
  have hmain := c7_failed_drop_reverts hreach rfl hcol
  ⟨hreach, rfl, hcol, hmain.1, hmain.2.1, hmain.2.2.1⟩

/-- C10 counterexample: after a board-source pickup without a position, a
Drop at a colliding position does not add the dragged piece's segment
identities to the occupied set — the occupied set stays empty and only
dragState is cleared. -/
theorem c10_counterexample :
    (let p1 : Piece := ⟨"piece-1", 1, 0, SEGMENT_PATTERNS 1⟩;
     let s1 := gameReducer getInitialState (.pickUpPiece p1 .board none);
     let s2 := gameReducer s1 (.dropPiece ⟨10, 10⟩);
     s1.dragState = some ⟨p1, .board, none, none⟩ ∧
     checkCollision p1 ⟨10, 10⟩ s1.board.occupiedSegments = true ∧
     s2.board.occupiedSegments = ∅ ∧
     segmentToId ⟨11, 10, .vertical⟩ ∉ s2.board.occupiedSegments) := by
  refine ⟨rfl, by decide, by decide, by decide⟩

/-- C10 amended: a board-source pickup without a position records
`dragState = {piece, sourceType board, no sourcePosition, no snapshot}` and
changes nothing else; a subsequent Drop at a colliding position falls
through the collision-failure branch into the placement code but misses both
placement sub-branches as well: the computed occupancy is discarded and the
state is returned with only dragState cleared — occupiedSegments,
placedPieces and inventory are all unchanged. -/
theorem c10_fallthrough_amended (s : GameState) (p : Piece) :
    gameReducer s (.pickUpPiece p .board none)
      = { s with dragState := some ⟨p, .board, none, none⟩ } ∧
    (∀ (t : GameState) (d : DragState) (pos : BoardPosition),
      t.dragState = some d → d.sourceType = .board → d.sourcePosition = none →
      checkCollision d.piece pos t.board.occupiedSegments = true →
      gameReducer t (.dropPiece pos) = { t with dragState := none }) := by
  refine ⟨rfl, ?_⟩
  intro t d pos hd hst hsp hc
  obtain ⟨dp, dst, dsp, dspc⟩ := d
  have hst' : dst = .board := hst
  subst hst'
  have hsp' : dsp = none := hsp
  subst hsp'
  have hc' : checkCollision dp pos t.board.occupiedSegments = true := hc
  simp only [gameReducer, hd]
  rw [if_pos hc', if_neg (by simp)]
  simp only [dropPlace]
  rw [if_neg (by simp)]

theorem c10_fallthrough_amended_witness :
    (let p7 : Piece := ⟨"piece-7", 7, 0, SEGMENT_PATTERNS 7⟩;
     let s1 := gameReducer getInitialState (.pickUpPiece p7 .board none);
     s1 = { getInitialState with dragState := some ⟨p7, .board, none, none⟩ } ∧
     checkCollision p7 ⟨9, 9⟩ s1.board.occupiedSegments = true ∧
     gameReducer s1 (.dropPiece ⟨9, 9⟩) = { s1 with dragState := none }) :=
  have happ := c10_fallthrough_amended getInitialState
    ⟨"piece-7", 7, 0, SEGMENT_PATTERNS 7⟩
  ⟨happ.1, by decide, happ.2 _ _ ⟨9, 9⟩ rfl rfl rfl (by decide)⟩

/-- C9 counterexample: with `piece-5` placed at `(0,0)` and an
inventory-source drag of `piece-0` active, `ReturnToInventory(piece-5)` — a
piece that is not the in-flight one but is on the board — only clears the
drag state: `piece-5` stays in `placedPieces` and is not appended to the
inventory, contradicting the claim's "otherwise, if the piece is on the
board" branch. -/
theorem c9_counterexample :
    (let p5 : Piece := ⟨"piece-5", 5, 0, SEGMENT_PATTERNS 5⟩;
     let p0 : Piece := ⟨"piece-0", 0, 0, SEGMENT_PATTERNS 0⟩;
     let s2 := gameReducer
        (gameReducer getInitialState (.pickUpPiece p5 .inventory none))
        (.dropPiece ⟨0, 0⟩);
     let s3 := gameReducer s2 (.pickUpPiece p0 .inventory none);
     let r := gameReducer s3 (.returnToInventory p5);
     s3.dragState = some ⟨p0, .inventory, none, none⟩ ∧
     (⟨p5, ⟨0, 0⟩⟩ : PlacedPiece) ∈ s3.board.placedPieces ∧
     r = { s3 with dragState := none } ∧
     (⟨p5, ⟨0, 0⟩⟩ : PlacedPiece) ∈ r.board.placedPieces ∧
     (∀ q ∈ r.inventory, q.id ≠ "piece-5")) := by
  refine ⟨rfl, by decide, rfl, by decide, by decide⟩

/-- C9 amended: `ReturnToInventory(piece)` behaves as Cancel whenever an
inventory-source drag is active, regardless of which piece is passed (the
reducer checks only `dragState.sourceType`); otherwise, when a placed entry
with the given piece's id exists, the transition removes it from
`placedPieces`, frees that entry's occupancy, clears the drag state, and
appends the given piece to the inventory unless an entry with the same id is
already there. -/
theorem c9_return_behavior_amended :
    (∀ (s : GameState) (p : Piece) (d : DragState),
      s.dragState = some d → d.sourceType = .inventory →
      gameReducer s (.returnToInventory p) = gameReducer s .cancelDrag) ∧
    (∀ (s : GameState) (p : Piece),
      (∀ d, s.dragState = some d → d.sourceType ≠ .inventory) →
      ∀ e, List.find? (fun pp => decide (pp.piece.id = p.id))
        s.board.placedPieces = some e →
      gameReducer s (.returnToInventory p)
        = { s with
            board := { s.board with
              placedPieces :=
                s.board.placedPieces.filter fun pp => pp.piece.id ≠ p.id,
              occupiedSegments :=
                updateOccupiedSegments s.board.occupiedSegments
                  e.piece e.position .remove },
            inventory := if s.inventory.any (fun q => q.id = p.id) then s.inventory
              else s.inventory ++ [p],
            dragState := none } ) := by
  constructor
  · intro s p d hd hst
    obtain ⟨dp, dst, dsp, dspc⟩ := d
    have hst' : dst = .inventory := hst
    subst hst'
    simp only [gameReducer, hd]
    rw [if_pos (show decide True = true from rfl), if_pos trivial]
  · intro s p hnotinv e hfind
    rcases hsd : s.dragState with _ | d
    · simp only [gameReducer, hsd]
      rw [if_neg (by decide : ¬(false = true)), hfind]
    · obtain ⟨dp, dst, dsp, dspc⟩ := d
      cases dst with
      | inventory => exact absurd rfl (hnotinv _ hsd)
      | board =>
        simp only [gameReducer, hsd]
        rw [if_neg (show ¬(decide (SourceType.board = SourceType.inventory) = true)
          from by decide), hfind]

theorem c9_return_behavior_amended_witness :
    (let p5 : Piece := ⟨"piece-5", 5, 0, SEGMENT_PATTERNS 5⟩;
     let p0 : Piece := ⟨"piece-0", 0, 0, SEGMENT_PATTERNS 0⟩;
     let s2 := gameReducer
        (gameReducer getInitialState (.pickUpPiece p5 .inventory none))
        (.dropPiece ⟨0, 0⟩);
     let s3 := gameReducer s2 (.pickUpPiece p0 .inventory none);
     (s3.dragState = some ⟨p0, .inventory, none, none⟩ ∧
       gameReducer s3 (.returnToInventory p5) = gameReducer s3 .cancelDrag) ∧
     ((∀ d, s2.dragState = some d → d.sourceType ≠ .inventory) ∧
       List.find? (fun pp => decide (pp.piece.id = p5.id)) s2.board.placedPieces
         = some ⟨p5, ⟨0, 0⟩⟩ ∧
       gameReducer s2 (.returnToInventory p5)
         = { s2 with
             board := { s2.board with
               placedPieces :=
                 s2.board.placedPieces.filter fun pp => pp.piece.id ≠ p5.id,
               occupiedSegments :=
                 updateOccupiedSegments s2.board.occupiedSegments
                   p5 ⟨0, 0⟩ .remove },
             inventory := if s2.inventory.any (fun q => q.id = p5.id) then s2.inventory
               else s2.inventory ++ [p5],
             dragState := none })) :=
  by
  refine ⟨⟨rfl, ?_⟩, ?_, ?_, ?_⟩
  · exact c9_return_behavior_amended.1 _ _
      ⟨⟨"piece-0", 0, 0, SEGMENT_PATTERNS 0⟩, SourceType.inventory, none, none⟩
      rfl rfl
  · intro d hd
    exact Option.noConfusion (show (none : Option DragState) = some d from hd)
  · decide
  · exact c9_return_behavior_amended.2
      (gameReducer (gameReducer getInitialState
        (.pickUpPiece ⟨"piece-5", 5, 0, SEGMENT_PATTERNS 5⟩ .inventory none))
        (.dropPiece ⟨0, 0⟩))
      ⟨"piece-5", 5, 0, SEGMENT_PATTERNS 5⟩
      (fun d hd => Option.noConfusion (show (none : Option DragState) = some d from hd))
      ⟨⟨"piece-5", 5, 0, SEGMENT_PATTERNS 5⟩, ⟨0, 0⟩⟩ (by decide)

end DigitsPuzzle
